import Mathlib

/-!
# Port protocol of the CAPA110 digital I/O driver

A shallow embedding of `capa110dio.c`: the Super I/O port protocol
(`selectDioDevice`, `configureDioPins`), the character-device callbacks
(`dev_read`, `dev_write`) and module initialisation (`capa110dio_init`).

Port accesses are recorded, in program order, in a trace of `PortEvent`s; the
hardware is an arbitrary function from the access history to the value a port
read returns. Kernel services used by initialisation are recorded as
`InitEvent`s together with the port accesses, so that their relative order can
be stated.
-/

namespace Capa110dio

/-! ## Protocol constants (the `#define` lines of the source) -/

def CAPA110_DIO_DEVICE : Int := 0x08

def PIN_MASK : Int := 0x07

def CMD_UNLOCK_SUPERIO : Int := 0x87

def CMD_SELECT_DEVICE : Int := 0x07

def CMD_CONFIG_PINS : Int := 0xE0

def CMD_IO : Int := 0xE1

def PORT_CMD : Nat := 0x2E

def PORT_PARAM : Nat := 0x2F

/-! ## Machine integers -/

/-- Integer widths the C source leaves to the target: the largest `ssize_t`
(`size_t` then ranges over `0 .. 2 * ssizeMax + 1`) and whether plain `char`
is signed. -/
structure Abi where
  ssizeMax : Nat
  charSigned : Bool

/-- The x86-64 Linux target: 64-bit `ssize_t`, signed `char`. -/
def lp64 : Abi := ⟨2 ^ 63 - 1, true⟩

/-- Conversion to `unsigned char`: the value modulo `2 ^ 8`. -/
def toU8 (n : Int) : Nat := (n % 256).toNat

/-- Conversion to plain `char`: modulo `2 ^ 8`, into `-128 .. 127` when `char`
is signed and into `0 .. 255` otherwise. -/
def toChar (abi : Abi) (n : Int) : Int :=
  if abi.charSigned then (n + 128) % 256 - 128 else n % 256

/-- Conversion to `ssize_t`: wraps modulo `2 * (ssizeMax + 1)` into
`-(ssizeMax + 1) .. ssizeMax`. -/
def toSsize (abi : Abi) (n : Int) : Int :=
  (n + (abi.ssizeMax + 1)) % (2 * (abi.ssizeMax + 1)) - (abi.ssizeMax + 1)

/-! ## Port bus -/

/-- One access to an I/O port: a byte written (`outb`) or a byte read
(`inb`). -/
inductive PortEvent where
  | out (value : Nat) (port : Nat)
  | inp (port : Nat) (value : Nat)
  deriving DecidableEq, Repr

/-- The port accesses made so far, oldest first. -/
abbrev Trace := List PortEvent

/-- The hardware behind the ports: the byte a read of `port` returns after the
given history of accesses. -/
abbrev Hardware := Trace → Nat → Nat

/-- The kernel primitive `outb(value, port)`: `value` is converted to
`unsigned char` and written to `port`. -/
def outb (value : Int) (port : Nat) (t : Trace) : Trace :=
  t ++ [PortEvent.out (toU8 value) port]

/-- The kernel primitive `inb(port)`: reads one `unsigned char` from `port`. -/
def inb (hw : Hardware) (port : Nat) (t : Trace) : Nat × Trace :=
  let v := hw t port % 256
  (v, t ++ [PortEvent.inp port v])

/-! ## Private methods of the driver -/

/-- Source `selectDioDevice`: unlock the Super I/O chip (twice), then select
the DIO logical device. -/
def selectDioDevice (t : Trace) : Trace :=
  let t := outb CMD_UNLOCK_SUPERIO PORT_CMD t
  let t := outb CMD_UNLOCK_SUPERIO PORT_CMD t
  let t := outb CMD_SELECT_DEVICE PORT_CMD t
  outb CAPA110_DIO_DEVICE PORT_PARAM t

/-- Source `configureDioPins`: the `0x30`/`0x02` register write, then the pin
direction mask. -/
def configureDioPins (t : Trace) : Trace :=
  let t := outb 0x30 PORT_CMD t
  let t := outb 0x02 PORT_PARAM t
  let t := outb CMD_CONFIG_PINS PORT_CMD t
  outb PIN_MASK PORT_PARAM t

/-! ## User memory -/

/-- The caller's buffer: the byte stored at each offset from the buffer
pointer. -/
abbrev UserMem := Nat → Nat

/-- The kernel primitive `put_user(val, buffer)` for a `char*`: stores the one
byte of `val` at offset 0. The source discards the status `put_user` returns,
so only the store is kept. -/
def put_user (val : Int) (buffer : UserMem) : UserMem :=
  fun i => if i = 0 then toU8 val else buffer i

/-- The memory image of a byte sequence handed to `write`: `seq[i]` at offset
`i`. -/
def bufferOf (seq : List Nat) : UserMem := fun i => seq.getD i 0

/-! ## Character-device callbacks -/

/-- What `dev_read` leaves behind: its return value, the caller's buffer and
the port trace. -/
structure ReadResult where
  result : Int
  buffer : UserMem
  trace : Trace

/-- Source `dev_read`: for `len > 0` one select sequence, one I/O command, one
port read stored through `put_user`, result 1; otherwise nothing, result 0.
The arguments `filep` and `offset` are unused by the source. -/
def dev_read (abi : Abi) (hw : Hardware) (buffer : UserMem) (len : Nat) (t : Trace) :
    ReadResult :=
  let result : Int := 0
  if len > 0 then
    let t := selectDioDevice t
    let t := outb CMD_IO PORT_CMD t
    let r := inb hw PORT_PARAM t
    let val : Int := toChar abi r.1
    let buffer := put_user val buffer
    let result : Int := 1
    ⟨result, buffer, r.2⟩
  else
    ⟨result, buffer, t⟩

/-- The `for` loop of source `dev_write`: one I/O command and one data byte
`buffer[writeLength]` per round. `writeLength` is held as the `size_t` value
the loop test compares with `len`; it never exceeds `len`, so it does not wrap
inside the loop. -/
def dev_write_loop (abi : Abi) (buffer : UserMem) (len : Nat) (writeLength : Nat)
    (t : Trace) : Nat × Trace :=
  if writeLength < len then
    let t := outb CMD_IO PORT_CMD t
    let t := outb (toChar abi (buffer writeLength)) PORT_PARAM t
    dev_write_loop abi buffer len (writeLength + 1) t
  else
    (writeLength, t)
termination_by len - writeLength

/-- Source `dev_write`: the select sequence, then the loop; returns the loop
counter as `ssize_t`, and the port trace. The arguments `filep` and `offset`
are unused by the source. -/
def dev_write (abi : Abi) (buffer : UserMem) (len : Nat) (t : Trace) : Int × Trace :=
  let t := selectDioDevice t
  let r := dev_write_loop abi buffer len 0 t
  (toSsize abi r.1, r.2)

/-! ## Sequences of calls -/

/-- One call into the driver through the device node. -/
inductive Op where
  | read (buffer : UserMem) (len : Nat)
  | write (buffer : UserMem) (len : Nat)

/-- The port trace after one call. -/
def runOp (abi : Abi) (hw : Hardware) (op : Op) (t : Trace) : Trace :=
  match op with
  | Op.read buffer len => (dev_read abi hw buffer len t).trace
  | Op.write buffer len => (dev_write abi buffer len t).2

/-- The port trace after a sequence of calls, dispatched one at a time. -/
def runOps (abi : Abi) (hw : Hardware) : List Op → Trace → Trace
  | [], t => t
  | op :: ops, t => runOps abi hw ops (runOp abi hw op t)

/-- The port accesses each call of a sequence added to the trace, one segment
per call. -/
def segments (abi : Abi) (hw : Hardware) : List Op → Trace → List Trace
  | [], _ => []
  | op :: ops, t =>
    (runOp abi hw op t).drop t.length :: segments abi hw ops (runOp abi hw op t)

/-- The I/O command written to the command port. -/
def ioCommand : PortEvent := PortEvent.out 0xE1 0x2E

/-- The port an access goes to. -/
def PortEvent.port : PortEvent → Nat
  | PortEvent.out _ p => p
  | PortEvent.inp p _ => p

/-- Position `k` of a segment is a data transfer: an access to the parameter
port that directly follows an I/O command. -/
def IsTransferAt (seg : Trace) (k : Nat) : Prop :=
  ∃ j e, k = j + 1 ∧ seg[j]? = some ioCommand ∧ seg[k]? = some e ∧ e.port = PORT_PARAM

/-! ## Calls in flight at the same time -/

/-- One port instruction of a call, before it is executed. -/
inductive PortInstr where
  | outb (value : Nat) (port : Nat)
  | inb (port : Nat)
  deriving DecidableEq, Repr

/-- The instruction that produced an event. -/
def instrOf : PortEvent → PortInstr
  | PortEvent.out v p => PortInstr.outb v p
  | PortEvent.inp p _ => PortInstr.inb p

/-- Executes one port instruction. -/
def exec (hw : Hardware) (i : PortInstr) (t : Trace) : Trace :=
  match i with
  | PortInstr.outb v p => outb v p t
  | PortInstr.inb p => (inb hw p t).2

/-- Executes a list of port instructions in order. -/
def execAll (hw : Hardware) : List PortInstr → Trace → Trace
  | [], t => t
  | i :: is, t => execAll hw is (exec hw i t)

/-- The port instructions of a call, in program order. The source takes no
lock, so these are all the steps of a call that touch shared state. -/
def program (abi : Abi) (op : Op) : List PortInstr :=
  (runOp abi (fun _ _ => 0) op []).map instrOf

/-- Two calls in flight: the instructions each still has to execute, and the
port trace so far. -/
structure Conc where
  first : List PortInstr
  second : List PortInstr
  trace : Trace

/-- Runs two calls under a schedule: `true` lets the first call execute its
next port instruction, `false` the second; a call that has finished does
nothing. -/
def runSchedule (hw : Hardware) : List Bool → Conc → Conc
  | [], c => c
  | true :: s, ⟨i :: a, b, t⟩ => runSchedule hw s ⟨a, b, exec hw i t⟩
  | false :: s, ⟨a, i :: b, t⟩ => runSchedule hw s ⟨a, b, exec hw i t⟩
  | _ :: s, c => runSchedule hw s c

/-- The schedule of single-threaded dispatch: the first call runs to its end,
then the second. -/
def serialSchedule (a b : List PortInstr) : List Bool :=
  List.replicate a.length true ++ List.replicate b.length false

/-! ## Module initialisation -/

/-- Linux `MAX_ERRNO` (`include/linux/err.h`). -/
def MAX_ERRNO : Int := 4095

/-- Linux `IS_ERR`: a pointer, read as a signed machine word, encodes an error
when it lies in `-MAX_ERRNO .. -1`. -/
def IS_ERR (ptr : Int) : Bool := decide (-MAX_ERRNO ≤ ptr) && decide (ptr < 0)

/-- Linux `PTR_ERR`: the pointer as a `long`. -/
def PTR_ERR (ptr : Int) : Int := ptr

/-- Conversion to `int` (32 bits), as at `return PTR_ERR(...)`. -/
def toInt (n : Int) : Int := (n + 2 ^ 31) % 2 ^ 32 - 2 ^ 31

/-- What the kernel answers to the three setup calls of initialisation:
`register_chrdev` returns an `int`, `class_create` and `device_create` a
pointer (read as a signed machine word). -/
structure KernelEnv where
  register_chrdev : Int
  class_create : Int
  device_create : Int

/-- One step of initialisation that is visible outside the function: a kernel
call with its arguments and result, or a port access. -/
inductive InitEvent where
  | register_chrdev (ret : Int)
  | class_create (ret : Int)
  | device_create (cls : Int) (major : Int) (ret : Int)
  | unregister_chrdev (major : Int)
  | class_destroy (cls : Int)
  | port (e : PortEvent)
  deriving DecidableEq, Repr

/-- Source `capa110dio_init`: its return value and its events in order
(`printk` calls are left out). -/
def capa110dio_init (k : KernelEnv) : Int × List InitEvent :=
  let capa110dio_major := k.register_chrdev
  let ev := [InitEvent.register_chrdev capa110dio_major]
  if capa110dio_major < 0 then
    (capa110dio_major, ev)
  else
    let capa110dio_class := k.class_create
    let ev := ev ++ [InitEvent.class_create capa110dio_class]
    if IS_ERR capa110dio_class then
      let ev := ev ++ [InitEvent.unregister_chrdev capa110dio_major]
      (toInt (PTR_ERR capa110dio_class), ev)
    else
      let capa110dio_device := k.device_create
      let ev := ev ++
        [InitEvent.device_create capa110dio_class capa110dio_major capa110dio_device]
      if IS_ERR capa110dio_device then
        let ev := ev ++ [InitEvent.class_destroy capa110dio_class]
        let ev := ev ++ [InitEvent.unregister_chrdev capa110dio_major]
        (toInt (PTR_ERR capa110dio_device), ev)
      else
        let ports := configureDioPins (selectDioDevice [])
        (0, ev ++ ports.map InitEvent.port)

/-- A kernel resource held by the module. -/
inductive Resource where
  | chrdev (major : Int)
  | cls (ptr : Int)
  | device (ptr : Int)
  deriving DecidableEq, Repr

/-- The effect of one event on the resources held: a setup call that succeeds
acquires its resource, a teardown call releases it. -/
def heldStep (rs : List Resource) : InitEvent → List Resource
  | InitEvent.register_chrdev ret => if ret < 0 then rs else rs ++ [Resource.chrdev ret]
  | InitEvent.class_create ret => if IS_ERR ret then rs else rs ++ [Resource.cls ret]
  | InitEvent.device_create _ _ ret =>
    if IS_ERR ret then rs else rs ++ [Resource.device ret]
  | InitEvent.unregister_chrdev major => rs.erase (Resource.chrdev major)
  | InitEvent.class_destroy c => rs.erase (Resource.cls c)
  | InitEvent.port _ => rs

/-- The resources held after a list of events, starting with none. -/
def held (evs : List InitEvent) : List Resource := evs.foldl heldStep []

/-- The port accesses among the events of initialisation, in order. -/
def portEvents : List InitEvent → Trace
  | [] => []
  | InitEvent.port e :: evs => e :: portEvents evs
  | _ :: evs => portEvents evs

/-- Whether an event is the creation of the device node. -/
def isDeviceCreate : InitEvent → Bool
  | InitEvent.device_create _ _ _ => true
  | _ => false

/-- Whether an event is a port access. -/
def isPort : InitEvent → Bool
  | InitEvent.port _ => true
  | _ => false

/-- Every port access among the events comes before the creation of the
device node: nothing from the node's creation on is a port access. -/
def PortsBeforeNode (evs : List InitEvent) : Prop :=
  ((evs.dropWhile (fun e => !isDeviceCreate e)).all (fun e => !isPort e)) = true

/-- Every port access among the events comes after the creation of the device
node: nothing before the node's creation is a port access. -/
def PortsAfterNode (evs : List InitEvent) : Prop :=
  ((evs.takeWhile (fun e => !isDeviceCreate e)).all (fun e => !isPort e)) = true

/-! ## Reading traces -/

/-- The values written to `port`, in order. -/
def writesTo (port : Nat) : Trace → List Nat
  | [] => []
  | PortEvent.out v p :: t => if p = port then v :: writesTo port t else writesTo port t
  | PortEvent.inp _ _ :: t => writesTo port t

/-- The four writes of the unlock and select sequence. -/
def selectSeq : Trace :=
  [PortEvent.out 0x87 0x2E, PortEvent.out 0x87 0x2E, PortEvent.out 0x07 0x2E,
    PortEvent.out 0x08 0x2F]

/-- The eight writes of configuration: unlock and select, the `0x30`/`0x02`
register write, the pin mask. -/
def configTrace : Trace :=
  [PortEvent.out 0x87 0x2E, PortEvent.out 0x87 0x2E, PortEvent.out 0x07 0x2E,
    PortEvent.out 0x08 0x2F, PortEvent.out 0x30 0x2E, PortEvent.out 0x02 0x2F,
    PortEvent.out 0xE0 0x2E, PortEvent.out 0x07 0x2F]

/-- The two writes that transfer one data byte: the I/O command, then the
byte. -/
def writePair (b : Nat) : Trace := [PortEvent.out 0xE1 0x2E, PortEvent.out b 0x2F]

/-- The shapes a call's own port accesses can take. -/
inductive SegShape : Trace → Prop where
  | idle : SegShape []
  | read (v : Nat) : SegShape (selectSeq ++ [ioCommand, PortEvent.inp 0x2F v])
  | write (f : Nat → Nat) (n : Nat) :
      SegShape (selectSeq ++ (List.range' 0 n).flatMap (fun i => writePair (f i)))

/-! ## Concrete inputs -/

/-- A kernel in which all three setup calls succeed: major number 250 and two
valid pointers. -/
def okEnv : KernelEnv := ⟨250, 0x1000, 0x2000⟩

/-- A kernel in which `device_create` fails with `-ENOMEM`. -/
def noDeviceEnv : KernelEnv := ⟨250, 0x1000, -12⟩

/-- Hardware whose pins read as the constant `v`. -/
def pins (v : Nat) : Hardware := fun _ _ => v

/-- A call writing the single byte 0xAA. -/
def writeA : Op := Op.write (bufferOf [0xAA]) 1

/-- A call writing the single byte 0x55. -/
def writeB : Op := Op.write (bufferOf [0x55]) 1

/-- A schedule in which the first call runs up to and including its I/O
command, the second call then runs whole, and the first call writes its data
byte last. -/
def raceSchedule : List Bool :=
  [true, true, true, true, true, false, false, false, false, false, false, true]

/-! ## Shared lemmas -/

theorem selectDioDevice_eq (t : Trace) : selectDioDevice t = t ++ selectSeq := by
  simp [selectDioDevice, outb, selectSeq, toU8, CMD_UNLOCK_SUPERIO, CMD_SELECT_DEVICE,
    CAPA110_DIO_DEVICE, PORT_CMD, PORT_PARAM]

theorem configureDioPins_eq (t : Trace) :
    configureDioPins t = t ++ [PortEvent.out 0x30 0x2E, PortEvent.out 0x02 0x2F,
      PortEvent.out 0xE0 0x2E, PortEvent.out 0x07 0x2F] := by
  simp [configureDioPins, outb, toU8, CMD_CONFIG_PINS, PIN_MASK, PORT_CMD, PORT_PARAM]

theorem toU8_toChar (abi : Abi) (n : Int) : toU8 (toChar abi n) = toU8 n := by
  unfold toU8 toChar
  split
  · congr 1
    omega
  · congr 1
    omega

theorem toU8_natCast (b : Nat) : toU8 (b : Int) = b % 256 := by
  unfold toU8
  omega

theorem toU8_byte (abi : Abi) (b : Nat) (h : b < 256) : toU8 (toChar abi (b : Int)) = b := by
  rw [toU8_toChar, toU8_natCast]
  omega

theorem toSsize_of_le (abi : Abi) (n : Nat) (h : n ≤ abi.ssizeMax) :
    toSsize abi (n : Int) = n := by
  unfold toSsize
  have h1 : (0 : Int) ≤ (n : Int) + ((abi.ssizeMax : Int) + 1) := by omega
  have h2 : (n : Int) + ((abi.ssizeMax : Int) + 1) < 2 * ((abi.ssizeMax : Int) + 1) := by
    omega
  rw [Int.emod_eq_of_lt h1 h2]
  omega

theorem dev_write_loop_eq (abi : Abi) (buffer : UserMem) (len : Nat) :
    ∀ (n w : Nat) (t : Trace), w + n = len →
      dev_write_loop abi buffer len w t
        = (len, t ++ (List.range' w n).flatMap (fun i => writePair (buffer i % 256))) := by
  intro n
  induction n with
  | zero =>
    intro w t h
    rw [dev_write_loop]
    have hw : ¬ w < len := by omega
    have hwl : w = len := by omega
    simp [hw, hwl]
  | succ n ih =>
    intro w t h
    rw [dev_write_loop]
    have hw : w < len := by omega
    simp only [hw, if_true]
    rw [ih (w + 1) _ (by omega)]
    simp only [outb, toU8_toChar, toU8_natCast]
    simp [List.range'_succ, writePair, toU8, CMD_IO, PORT_CMD, PORT_PARAM]

theorem dev_write_eq (abi : Abi) (buffer : UserMem) (len : Nat) (t : Trace) :
    dev_write abi buffer len t
      = (toSsize abi (len : Int),
          t ++ selectSeq ++ (List.range' 0 len).flatMap (fun i => writePair (buffer i % 256))) := by
  unfold dev_write
  simp only [selectDioDevice_eq]
  rw [dev_write_loop_eq abi buffer len len 0 _ (by omega)]

theorem flatMap_bufferOf (seq : List Nat) (hbytes : ∀ b ∈ seq, b < 256) :
    ∀ (pre : List Nat),
      (List.range' pre.length seq.length).flatMap
          (fun i => writePair (bufferOf (pre ++ seq) i % 256))
        = seq.flatMap writePair := by
  induction seq with
  | nil => intro pre; simp
  | cons b bs ih =>
    intro pre
    have hb : b < 256 := hbytes b (by simp)
    have ih2 := ih (fun c hc => hbytes c (by simp [hc])) (pre ++ [b])
    simp only [List.length_append, List.length_cons, List.length_nil, List.append_assoc,
      List.singleton_append] at ih2
    simp only [List.length_cons, List.range'_succ, List.flatMap_cons]
    rw [ih2]
    have : bufferOf (pre ++ b :: bs) pre.length % 256 = b := by
      have hget : (pre ++ b :: bs).getD pre.length 0 = b := by
        rw [List.getD_eq_getElem?_getD, List.getElem?_append_right (le_refl _)]
        simp
      simp only [bufferOf, hget]
      omega
    rw [this]

theorem pairs_getElem (f : Nat → Nat) :
    ∀ (n w j : Nat), j < n →
      ((List.range' w n).flatMap (fun i => writePair (f i)))[2 * j]?
          = some (PortEvent.out 0xE1 0x2E) ∧
      ((List.range' w n).flatMap (fun i => writePair (f i)))[2 * j + 1]?
          = some (PortEvent.out (f (w + j)) 0x2F) := by
  intro n
  induction n with
  | zero => intro w j h; omega
  | succ n ih =>
    intro w j h
    simp only [List.range'_succ, List.flatMap_cons, writePair]
    cases j with
    | zero => simp
    | succ j =>
      have := ih (w + 1) j (by omega)
      have e1 : 2 * (j + 1) = 2 * j + 1 + 1 := by omega
      have e2 : 2 * (j + 1) + 1 = 2 * j + 1 + 1 + 1 := by omega
      have e3 : w + 1 + j = w + (j + 1) := by omega
      rw [e2, e1]
      simp only [List.cons_append, List.nil_append, List.getElem?_cons_succ]
      rw [← e3]
      exact this

theorem isErr_iff (p : Int) : IS_ERR p = true ↔ -4095 ≤ p ∧ p < 0 := by
  simp [IS_ERR, MAX_ERRNO]

theorem toInt_ptrErr (p : Int) (h : IS_ERR p = true) : toInt (PTR_ERR p) = p := by
  have := (isErr_iff p).1 h
  unfold toInt PTR_ERR
  omega

theorem configure_eq (t : Trace) :
    configureDioPins (selectDioDevice t) = t ++ configTrace := by
  simp [selectDioDevice_eq, configureDioPins_eq, selectSeq, configTrace]

/-- The four ways `capa110dio_init` can run, each with its return value and
events. -/
theorem init_cases (k : KernelEnv) :
    (k.register_chrdev < 0 ∧
      capa110dio_init k
        = (k.register_chrdev, [InitEvent.register_chrdev k.register_chrdev])) ∨
    (¬ k.register_chrdev < 0 ∧ IS_ERR k.class_create = true ∧
      capa110dio_init k
        = (k.class_create,
            [InitEvent.register_chrdev k.register_chrdev,
              InitEvent.class_create k.class_create,
              InitEvent.unregister_chrdev k.register_chrdev])) ∨
    (¬ k.register_chrdev < 0 ∧ IS_ERR k.class_create = false ∧
      IS_ERR k.device_create = true ∧
      capa110dio_init k
        = (k.device_create,
            [InitEvent.register_chrdev k.register_chrdev,
              InitEvent.class_create k.class_create,
              InitEvent.device_create k.class_create k.register_chrdev k.device_create,
              InitEvent.class_destroy k.class_create,
              InitEvent.unregister_chrdev k.register_chrdev])) ∨
    (¬ k.register_chrdev < 0 ∧ IS_ERR k.class_create = false ∧
      IS_ERR k.device_create = false ∧
      capa110dio_init k
        = (0,
            [InitEvent.register_chrdev k.register_chrdev,
              InitEvent.class_create k.class_create,
              InitEvent.device_create k.class_create k.register_chrdev k.device_create]
              ++ configTrace.map InitEvent.port)) := by
  by_cases h1 : k.register_chrdev < 0
  · left
    exact ⟨h1, by simp [capa110dio_init, h1]⟩
  · right
    cases h2 : IS_ERR k.class_create with
    | true =>
      left
      exact ⟨h1, rfl, by simp [capa110dio_init, h1, h2, toInt_ptrErr]⟩
    | false =>
      right
      cases h3 : IS_ERR k.device_create with
      | true =>
        left
        exact ⟨h1, rfl, rfl, by simp [capa110dio_init, h1, h2, h3, toInt_ptrErr]⟩
      | false =>
        right
        exact ⟨h1, rfl, rfl, by simp [capa110dio_init, h1, h2, h3, configure_eq]⟩

/-! ## Configuration -/

/-- C1: configuration (`selectDioDevice` then `configureDioPins`) appends
exactly eight port writes to the trace, in this order: 0x87, 0x87, 0x07 to the
command port 0x2E, 0x08 to the parameter port 0x2F, 0x30 to 0x2E, 0x02 to
0x2F, 0xE0 to 0x2E, 0x07 to 0x2F. The command-port writes are
0x87, 0x87, 0x07, 0x30, 0xE0, the parameter-port writes 0x08, 0x02, 0x07, and
a successful `capa110dio_init` issues exactly these eight port accesses. -/
theorem configure_issues_eight_writes (t : Trace) :
    configureDioPins (selectDioDevice t)
        = t ++ [PortEvent.out 0x87 0x2E, PortEvent.out 0x87 0x2E, PortEvent.out 0x07 0x2E,
            PortEvent.out 0x08 0x2F, PortEvent.out 0x30 0x2E, PortEvent.out 0x02 0x2F,
            PortEvent.out 0xE0 0x2E, PortEvent.out 0x07 0x2F] ∧
      writesTo PORT_CMD (configureDioPins (selectDioDevice []))
        = [0x87, 0x87, 0x07, 0x30, 0xE0] ∧
      writesTo PORT_PARAM (configureDioPins (selectDioDevice [])) = [0x08, 0x02, 0x07] ∧
      ∀ k : KernelEnv, (capa110dio_init k).1 = 0 →
        portEvents (capa110dio_init k).2
          = [PortEvent.out 0x87 0x2E, PortEvent.out 0x87 0x2E, PortEvent.out 0x07 0x2E,
              PortEvent.out 0x08 0x2F, PortEvent.out 0x30 0x2E, PortEvent.out 0x02 0x2F,
              PortEvent.out 0xE0 0x2E, PortEvent.out 0x07 0x2F] := by
  refine ⟨?_, ?_, ?_, ?_⟩
  · simp [selectDioDevice_eq, configureDioPins_eq, selectSeq]
  · rw [selectDioDevice_eq, configureDioPins_eq]
    rfl
  · rw [selectDioDevice_eq, configureDioPins_eq]
    rfl
  · intro k hk
    rcases init_cases k with h | h | h | h
    · rw [h.2] at hk
      have := h.1
      simp only at hk
      omega
    · rw [h.2.2] at hk
      have := (isErr_iff _).1 h.2.1
      simp only at hk
      omega
    · rw [h.2.2.2] at hk
      have := (isErr_iff _).1 h.2.2.1
      simp only at hk
      omega
    · rw [h.2.2.2]
      simp [portEvents, configTrace]

/-- C6: running the configure sequence twice in a row yields the single-run
writes twice over: the second run appends the same eight writes as the first,
whatever the trace it starts from. -/
theorem configure_twice (t : Trace) :
    configureDioPins (selectDioDevice (configureDioPins (selectDioDevice t)))
        = t ++ configureDioPins (selectDioDevice [])
            ++ configureDioPins (selectDioDevice []) ∧
      ∀ t0 : Trace,
        configureDioPins (selectDioDevice t0)
          = t0 ++ configureDioPins (selectDioDevice []) := by
  constructor
  · simp [selectDioDevice_eq, configureDioPins_eq, selectSeq]
  · intro t0
    simp [selectDioDevice_eq, configureDioPins_eq, selectSeq]

/-! ## Writing -/

/-- C2: for every byte sequence `seq` of length `N` (within the range of
`ssize_t`), `dev_write (seq, N)` appends to the trace the unlock, unlock,
select, device ID writes once, then for each byte of `seq` in order the I/O
command 0xE1 to the command port followed by that byte to the parameter port,
nothing else, and returns `N`. With length 0 it appends only the four select
writes and returns 0. -/
theorem dev_write_issues_pairs (abi : Abi) (seq : List Nat) (t : Trace)
    (hbytes : ∀ b ∈ seq, b < 256) (hlen : seq.length ≤ abi.ssizeMax) :
    dev_write abi (bufferOf seq) seq.length t
        = ((seq.length : Int),
            t ++ [PortEvent.out 0x87 0x2E, PortEvent.out 0x87 0x2E, PortEvent.out 0x07 0x2E,
                PortEvent.out 0x08 0x2F]
              ++ seq.flatMap (fun b => [PortEvent.out 0xE1 0x2E, PortEvent.out b 0x2F])) ∧
      ∀ buffer : UserMem,
        dev_write abi buffer 0 t
          = (0, t ++ [PortEvent.out 0x87 0x2E, PortEvent.out 0x87 0x2E,
              PortEvent.out 0x07 0x2E, PortEvent.out 0x08 0x2F]) := by
  constructor
  · rw [dev_write_eq, toSsize_of_le abi _ hlen]
    have h := flatMap_bufferOf seq hbytes []
    simp only [List.length_nil, List.nil_append] at h
    rw [h]
    rfl
  · intro buffer
    rw [dev_write_eq]
    have h0 := toSsize_of_le abi 0 (Nat.zero_le _)
    simp only [Nat.cast_zero] at h0
    simp [h0, selectSeq]

/-- The scenario of the specification: writing 0xAA, 0x55 on the 64-bit
target. -/
theorem dev_write_issues_pairs_witness :
    dev_write lp64 (bufferOf [0xAA, 0x55]) 2 []
      = (2, [PortEvent.out 0x87 0x2E, PortEvent.out 0x87 0x2E, PortEvent.out 0x07 0x2E,
          PortEvent.out 0x08 0x2F, PortEvent.out 0xE1 0x2E, PortEvent.out 0xAA 0x2F,
          PortEvent.out 0xE1 0x2E, PortEvent.out 0x55 0x2F]) :=
  (dev_write_issues_pairs lp64 [0xAA, 0x55] [] (by decide) (by decide)).1

/-! ## Reading -/

/-- C3: for every read request with `len > 0` and whatever byte `v` the
hardware presents on the parameter port, `dev_read` appends to the trace the
writes 0x87, 0x87, 0x07 to the command port, 0x08 to the parameter port, 0xE1
to the command port, then exactly one read of the parameter port returning
`v`, and the byte it stores at the start of the caller's buffer is `v`. -/
theorem dev_read_trace (abi : Abi) (hw : Hardware) (buffer : UserMem) (len : Nat)
    (t : Trace) (hlen : 0 < len) :
    ∃ v : Nat,
      v = hw (t ++ [PortEvent.out 0x87 0x2E, PortEvent.out 0x87 0x2E,
              PortEvent.out 0x07 0x2E, PortEvent.out 0x08 0x2F, PortEvent.out 0xE1 0x2E])
            0x2F % 256 ∧
      (dev_read abi hw buffer len t).trace
        = t ++ [PortEvent.out 0x87 0x2E, PortEvent.out 0x87 0x2E, PortEvent.out 0x07 0x2E,
            PortEvent.out 0x08 0x2F, PortEvent.out 0xE1 0x2E, PortEvent.inp 0x2F v] ∧
      (dev_read abi hw buffer len t).buffer 0 = v := by
  refine ⟨_, rfl, ?_, ?_⟩
  · simp [dev_read, hlen, selectDioDevice_eq, selectSeq, outb, inb, toU8, CMD_IO, PORT_CMD,
      PORT_PARAM]
  · simp only [dev_read, hlen, if_true, put_user, inb, toU8_toChar, toU8_natCast,
      selectDioDevice_eq]
    simp [selectSeq, outb, toU8, CMD_IO, PORT_CMD, PORT_PARAM]

/-- A one-byte read on the 64-bit target with the pins at 0xA5. -/
theorem dev_read_trace_witness :
    (dev_read lp64 (pins 0xA5) (fun _ => 0) 1 []).trace
        = [PortEvent.out 0x87 0x2E, PortEvent.out 0x87 0x2E, PortEvent.out 0x07 0x2E,
            PortEvent.out 0x08 0x2F, PortEvent.out 0xE1 0x2E, PortEvent.inp 0x2F 0xA5] ∧
      (dev_read lp64 (pins 0xA5) (fun _ => 0) 1 []).buffer 0 = 0xA5 := by
  obtain ⟨v, hv, ht, hb⟩ := dev_read_trace lp64 (pins 0xA5) (fun _ => 0) 1 [] (by decide)
  have h : v = 0xA5 := by simpa [pins] using hv
  subst h
  exact ⟨by simpa using ht, hb⟩

/-- C10: every 8-bit value `b` survives the conversions through `char`,
whether `char` is signed or not: converting `b` to `char` and back to
`unsigned char` gives `b` (a signed `char` holds `b - 256` when `b >= 0x80`);
`dev_write` puts exactly `b` on the parameter port for a caller byte `b` at
any offset `i < len`; and `dev_read` stores exactly `b` in the caller's
buffer, and records `b` as read, when the parameter port returns `b`. -/
theorem byte_conversions_identity (abi : Abi) (b : Nat) (hb : b < 256) :
    toU8 (toChar abi (b : Int)) = b ∧
    (abi.charSigned = true → 0x80 ≤ b → toChar abi (b : Int) = (b : Int) - 256) ∧
    (∀ (buffer : UserMem) (len i : Nat) (t : Trace), i < len → buffer i = b →
      (dev_write abi buffer len t).2[t.length + 4 + 2 * i]?
          = some (PortEvent.out 0xE1 0x2E) ∧
      (dev_write abi buffer len t).2[t.length + 4 + 2 * i + 1]?
          = some (PortEvent.out b 0x2F)) ∧
    (∀ (hw : Hardware) (buffer : UserMem) (len : Nat) (t : Trace), 0 < len →
      hw (t ++ [PortEvent.out 0x87 0x2E, PortEvent.out 0x87 0x2E, PortEvent.out 0x07 0x2E,
          PortEvent.out 0x08 0x2F, PortEvent.out 0xE1 0x2E]) 0x2F = b →
      (dev_read abi hw buffer len t).buffer 0 = b ∧
      (dev_read abi hw buffer len t).trace.getLast? = some (PortEvent.inp 0x2F b)) := by
  refine ⟨toU8_byte abi b hb, ?_, ?_, ?_⟩
  · intro hs h80
    simp only [toChar, hs, if_true]
    omega
  · intro buffer len i t hi hbuf
    rw [dev_write_eq]
    have hsel : (t ++ selectSeq).length = t.length + 4 := by simp [selectSeq]
    have hp := pairs_getElem (fun i => buffer i % 256) len 0 i hi
    have hbm : buffer (0 + i) % 256 = b := by
      rw [Nat.zero_add, hbuf]
      omega
    constructor
    · have e : t.length + 4 + 2 * i = (t ++ selectSeq).length + 2 * i := by omega
      simp only
      rw [e, List.getElem?_append_right (by omega)]
      simpa using hp.1
    · have e : t.length + 4 + 2 * i + 1 = (t ++ selectSeq).length + (2 * i + 1) := by omega
      simp only
      rw [e, List.getElem?_append_right (by omega)]
      have := hp.2
      simp only [hbm] at this
      simpa using this
  · intro hw buffer len t hlen hhw
    have hmod : b % 256 = b := by omega
    constructor
    · simp only [dev_read, hlen, if_true, put_user, inb, toU8_toChar, toU8_natCast,
        selectDioDevice_eq]
      simp [selectSeq, outb, toU8, CMD_IO, PORT_CMD, PORT_PARAM, hhw, hmod]
    · simp [dev_read, hlen, selectDioDevice_eq, selectSeq, outb, inb, toU8, CMD_IO, PORT_CMD,
        PORT_PARAM, hhw, hmod]

/-- The value 0xE7, negative as a signed `char`, on the 64-bit target:
converted, written as the second byte of a two-byte request, and read. -/
theorem byte_conversions_identity_witness :
    toU8 (toChar lp64 ((0xE7 : Nat) : Int)) = 0xE7 ∧
      toChar lp64 ((0xE7 : Nat) : Int) = ((0xE7 : Nat) : Int) - 256 ∧
      (dev_write lp64 (bufferOf [0x01, 0xE7]) 2 []).2[([] : Trace).length + 4 + 2 * 1 + 1]?
        = some (PortEvent.out 0xE7 0x2F) ∧
      (dev_read lp64 (fun _ _ => 0xE7) (fun _ => 0) 1 []).buffer 0 = 0xE7 :=
  ⟨(byte_conversions_identity lp64 0xE7 (by decide)).1,
    (byte_conversions_identity lp64 0xE7 (by decide)).2.1 rfl (by decide),
    ((byte_conversions_identity lp64 0xE7 (by decide)).2.2.1 (bufferOf [0x01, 0xE7]) 2 1 []
      (by decide) rfl).2,
    ((byte_conversions_identity lp64 0xE7 (by decide)).2.2.2 (fun _ _ => 0xE7) (fun _ => 0) 1 []
      (by decide) rfl).1⟩

/-! ## Every transfer re-selects the device -/

theorem pairs_length (f : Nat → Nat) :
    ∀ (n w : Nat), ((List.range' w n).flatMap (fun i => writePair (f i))).length = 2 * n := by
  intro n
  induction n with
  | zero => intro w; simp
  | succ n ih =>
    intro w
    simp only [List.range'_succ, List.flatMap_cons, List.length_append, ih (w + 1)]
    simp [writePair]
    omega

theorem runOp_shape (abi : Abi) (hw : Hardware) (op : Op) (t : Trace) :
    ∃ seg, runOp abi hw op t = t ++ seg ∧ SegShape seg := by
  cases op with
  | read buffer len =>
    by_cases hlen : 0 < len
    · refine ⟨_, ?_, SegShape.read (hw (t ++ selectSeq ++ [ioCommand]) 0x2F % 256)⟩
      simp [runOp, dev_read, hlen, selectDioDevice_eq, selectSeq, outb, inb, toU8, CMD_IO,
        PORT_CMD, PORT_PARAM, ioCommand]
    · refine ⟨[], ?_, SegShape.idle⟩
      simp [runOp, dev_read, hlen]
  | write buffer len =>
    refine ⟨_, ?_, SegShape.write (fun i => buffer i % 256) len⟩
    simp [runOp, dev_write_eq]

theorem select_not_io (j : Nat) (hj : j < 4) : selectSeq[j]? ≠ some ioCommand := by
  interval_cases j <;> simp [selectSeq, ioCommand]

theorem shape_transfer (seg : Trace) (h : SegShape seg) (k : Nat) (hk : IsTransferAt seg k) :
    seg.take 5 = selectSeq ++ [ioCommand] ∧ 5 ≤ k := by
  obtain ⟨j, e, hkj, hio, _, _⟩ := hk
  have hj4 : 4 ≤ j := by
    by_contra hlt
    have hlt : j < 4 := by omega
    cases h with
    | idle => simp at hio
    | read v =>
      rw [List.getElem?_append_left (by simpa [selectSeq] using hlt)] at hio
      exact select_not_io j hlt hio
    | write f n =>
      rw [List.getElem?_append_left (by simpa [selectSeq] using hlt)] at hio
      exact select_not_io j hlt hio
  refine ⟨?_, by omega⟩
  cases h with
  | idle => simp at hio
  | read v => simp [selectSeq]
  | write f n =>
    cases n with
    | zero =>
      simp only [List.range'_zero, List.flatMap_nil, List.append_nil] at hio
      have : j < selectSeq.length := by
        by_contra hge
        rw [List.getElem?_eq_none (by omega)] at hio
        exact absurd hio (by simp)
      simp [selectSeq] at this
      omega
    | succ n => simp [List.range'_succ, selectSeq, writePair, ioCommand]

theorem shape_param (seg : Trace) (h : SegShape seg) (j : Nat) (e : PortEvent)
    (hj : seg[j]? = some e) (hp : e.port = PORT_PARAM) :
    (j = 3 ∧ e = PortEvent.out 0x08 0x2F) ∨ IsTransferAt seg j := by
  by_cases hlt : j < 4
  · left
    have hsel : selectSeq[j]? = some e := by
      cases h with
      | idle => simp at hj
      | read v => rwa [List.getElem?_append_left (by simpa [selectSeq] using hlt)] at hj
      | write f n => rwa [List.getElem?_append_left (by simpa [selectSeq] using hlt)] at hj
    interval_cases j
    · simp [selectSeq] at hsel; subst hsel; simp [PortEvent.port, PORT_PARAM] at hp
    · simp [selectSeq] at hsel; subst hsel; simp [PortEvent.port, PORT_PARAM] at hp
    · simp [selectSeq] at hsel; subst hsel; simp [PortEvent.port, PORT_PARAM] at hp
    · simp [selectSeq] at hsel
      exact ⟨rfl, hsel.symm⟩
  · right
    have hs4 : selectSeq.length = 4 := by simp [selectSeq]
    cases h with
    | idle => simp at hj
    | read v =>
      have hj' := hj
      rw [List.getElem?_append_right (by omega), hs4] at hj'
      have hlen : j - 4 < 2 := by
        by_contra hge
        rw [List.getElem?_eq_none (by simp; omega)] at hj'
        exact absurd hj' (by simp)
      have hj5 : j = 5 := by
        rcases Nat.lt_or_ge (j - 4) 1 with h0 | h1
        · have : j - 4 = 0 := by omega
          rw [this] at hj'
          simp at hj'
          subst hj'
          simp [ioCommand, PortEvent.port, PORT_PARAM] at hp
        · omega
      subst hj5
      exact ⟨4, e, rfl, by simp [selectSeq], hj, hp⟩
    | write f n =>
      have hj' := hj
      rw [List.getElem?_append_right (by omega), hs4] at hj'
      have hlen : j - 4 < 2 * n := by
        by_contra hge
        rw [List.getElem?_eq_none (by rw [pairs_length]; omega)] at hj'
        exact absurd hj' (by simp)
      have hpair := pairs_getElem f n 0 ((j - 4) / 2) (by omega)
      rcases Nat.mod_two_eq_zero_or_one (j - 4) with h0 | h1
      · have he : 2 * ((j - 4) / 2) = j - 4 := by omega
        rw [he, hj'] at hpair
        have := hpair.1
        simp only [Option.some.injEq] at this
        subst this
        simp [PortEvent.port, PORT_PARAM] at hp
      · have he : 2 * ((j - 4) / 2) = j - 1 - 4 := by omega
        refine ⟨j - 1, e, by omega, ?_, hj, hp⟩
        rw [List.getElem?_append_right (by omega), hs4, ← he]
        exact hpair.1

theorem segments_shape (abi : Abi) (hw : Hardware) :
    ∀ (ops : List Op) (t : Trace),
      runOps abi hw ops t = t ++ (segments abi hw ops t).flatten ∧
      ∀ seg ∈ segments abi hw ops t, SegShape seg := by
  intro ops
  induction ops with
  | nil => intro t; simp [runOps, segments]
  | cons op ops ih =>
    intro t
    obtain ⟨seg, hrun, hshape⟩ := runOp_shape abi hw op t
    have hdrop : (runOp abi hw op t).drop t.length = seg := by
      rw [hrun, List.drop_left]
    obtain ⟨ih1, ih2⟩ := ih (runOp abi hw op t)
    constructor
    · simp only [runOps, segments, List.flatten_cons, hdrop]
      rw [ih1, hrun, List.append_assoc]
    · intro s hs
      simp only [segments, List.mem_cons, hdrop] at hs
      rcases hs with rfl | hs
      · exact hshape
      · exact ih2 s hs

theorem shape_select (seg : Trace) (h : SegShape seg) :
    seg = [] ∨ seg.take 4 = selectSeq := by
  cases h with
  | idle => exact Or.inl rfl
  | read v => exact Or.inr (by simp [selectSeq])
  | write f n => exact Or.inr (by simp [selectSeq])

/-- C5: for every finite sequence of `dev_read` and `dev_write` calls, from any
starting trace and with any hardware, the trace is the concatenation of the
calls' own segments, and each segment stands on its own. A segment is empty (a
read of length 0, which transfers nothing) or starts with the writes 0x87,
0x87, 0x07 to the command port and 0x08 to the parameter port. Every data
transfer on the parameter port (an access there that directly follows an I/O
command) is at position 5 or later of a segment that starts with these four
writes followed by the I/O command, so the full select sequence precedes the
segment's first I/O command. The only other access to the parameter port in a
segment is the write of the device ID 0x08 at position 3. The segment is the
empty one, the six accesses of a read, or the select sequence followed by
I/O command and data byte pairs. -/
theorem transfers_follow_select (abi : Abi) (hw : Hardware) (ops : List Op) (t0 : Trace)
    (seg : Trace) (hseg : seg ∈ segments abi hw ops t0) :
    runOps abi hw ops t0 = t0 ++ (segments abi hw ops t0).flatten ∧
    (∀ k : Nat, IsTransferAt seg k →
      seg.take 5
          = [PortEvent.out 0x87 0x2E, PortEvent.out 0x87 0x2E, PortEvent.out 0x07 0x2E,
              PortEvent.out 0x08 0x2F, PortEvent.out 0xE1 0x2E] ∧
        5 ≤ k) ∧
    (∀ (j : Nat) (e : PortEvent), seg[j]? = some e → e.port = PORT_PARAM →
      (j = 3 ∧ e = PortEvent.out 0x08 0x2F) ∨ IsTransferAt seg j) ∧
    (seg = [] ∨
      seg.take 4
        = [PortEvent.out 0x87 0x2E, PortEvent.out 0x87 0x2E, PortEvent.out 0x07 0x2E,
            PortEvent.out 0x08 0x2F]) ∧
    SegShape seg := by
  obtain ⟨h1, h2⟩ := segments_shape abi hw ops t0
  refine ⟨h1, ?_, ?_, ?_, h2 seg hseg⟩
  · intro k hk
    have := shape_transfer seg (h2 seg hseg) k hk
    simpa [selectSeq, ioCommand] using this
  · intro j e hj hp
    exact shape_param seg (h2 seg hseg) j e hj hp
  · have := shape_select seg (h2 seg hseg)
    simpa [selectSeq] using this

/-- A write of 0xAA followed by a read: the data byte of the write is the
transfer at position 5 of the write's segment. -/
theorem transfers_follow_select_witness :
    IsTransferAt
        [PortEvent.out 0x87 0x2E, PortEvent.out 0x87 0x2E, PortEvent.out 0x07 0x2E,
          PortEvent.out 0x08 0x2F, PortEvent.out 0xE1 0x2E, PortEvent.out 0xAA 0x2F] 5 ∧
      [PortEvent.out 0x87 0x2E, PortEvent.out 0x87 0x2E, PortEvent.out 0x07 0x2E,
          PortEvent.out 0x08 0x2F, PortEvent.out 0xE1 0x2E, PortEvent.out 0xAA 0x2F].take 5
        = [PortEvent.out 0x87 0x2E, PortEvent.out 0x87 0x2E, PortEvent.out 0x07 0x2E,
            PortEvent.out 0x08 0x2F, PortEvent.out 0xE1 0x2E] ∧
      5 ≤ 5 :=
  have hk : IsTransferAt
      [PortEvent.out 0x87 0x2E, PortEvent.out 0x87 0x2E, PortEvent.out 0x07 0x2E,
        PortEvent.out 0x08 0x2F, PortEvent.out 0xE1 0x2E, PortEvent.out 0xAA 0x2F] 5 :=
    ⟨4, PortEvent.out 0xAA 0x2F, rfl, rfl, rfl, rfl⟩
  ⟨hk,
    (transfers_follow_select lp64 (pins 0x05) [writeA, Op.read (fun _ => 0) 4] []
      [PortEvent.out 0x87 0x2E, PortEvent.out 0x87 0x2E, PortEvent.out 0x07 0x2E,
        PortEvent.out 0x08 0x2F, PortEvent.out 0xE1 0x2E, PortEvent.out 0xAA 0x2F]
      (by simp [segments, runOp, writeA, dev_write_eq, selectSeq, writePair, bufferOf])).2.1
      5 hk⟩

/-! ## Module initialisation -/

/-- C7, as stated, fails: in a successful initialisation the device node is
created by event 2 and all eight configuration writes come after it. -/
theorem configure_before_node_counterexample :
    (capa110dio_init okEnv).1 = 0 ∧
      (capa110dio_init okEnv).2
        = [InitEvent.register_chrdev 250, InitEvent.class_create 0x1000,
            InitEvent.device_create 0x1000 250 0x2000,
            InitEvent.port (PortEvent.out 0x87 0x2E), InitEvent.port (PortEvent.out 0x87 0x2E),
            InitEvent.port (PortEvent.out 0x07 0x2E), InitEvent.port (PortEvent.out 0x08 0x2F),
            InitEvent.port (PortEvent.out 0x30 0x2E), InitEvent.port (PortEvent.out 0x02 0x2F),
            InitEvent.port (PortEvent.out 0xE0 0x2E), InitEvent.port (PortEvent.out 0x07 0x2F)] ∧
      ¬ PortsBeforeNode (capa110dio_init okEnv).2 := by
  have h : (capa110dio_init okEnv)
      = (0, [InitEvent.register_chrdev 250, InitEvent.class_create 0x1000,
            InitEvent.device_create 0x1000 250 0x2000]
            ++ configTrace.map InitEvent.port) := by
    rcases init_cases okEnv with h | h | h | h
    · exact absurd h.1 (by decide)
    · exact absurd h.2.1 (by decide)
    · exact absurd h.2.2.1 (by decide)
    · exact h.2.2.2
  rw [h]
  refine ⟨rfl, rfl, ?_⟩
  unfold PortsBeforeNode
  decide

/-- C7, amended: in every successful initialisation the eight configuration
writes are issued exactly once, as the last events of initialisation, directly
after the creation of the device node; every port access comes after that
step. -/
theorem configure_once_after_node (k : KernelEnv) (hok : (capa110dio_init k).1 = 0) :
    (capa110dio_init k).2
        = [InitEvent.register_chrdev k.register_chrdev,
            InitEvent.class_create k.class_create,
            InitEvent.device_create k.class_create k.register_chrdev k.device_create]
          ++ (configureDioPins (selectDioDevice [])).map InitEvent.port ∧
      portEvents (capa110dio_init k).2 = configureDioPins (selectDioDevice []) ∧
      PortsAfterNode (capa110dio_init k).2 := by
  rw [configure_eq, List.nil_append]
  rcases init_cases k with h | h | h | h
  · rw [h.2] at hok
    have := h.1
    simp only at hok
    omega
  · rw [h.2.2] at hok
    have := (isErr_iff _).1 h.2.1
    simp only at hok
    omega
  · rw [h.2.2.2] at hok
    have := (isErr_iff _).1 h.2.2.1
    simp only at hok
    omega
  · rw [h.2.2.2]
    refine ⟨rfl, ?_, ?_⟩
    · simp [portEvents, configTrace]
    · simp [PortsAfterNode, isDeviceCreate, isPort, List.takeWhile]

/-- Successful initialisation with major number 250. -/
theorem configure_once_after_node_witness :
    (capa110dio_init okEnv).1 = 0 ∧
      portEvents (capa110dio_init okEnv).2 = configureDioPins (selectDioDevice []) ∧
      PortsAfterNode (capa110dio_init okEnv).2 :=
  have hok : (capa110dio_init okEnv).1 = 0 := by decide
  ⟨hok, (configure_once_after_node okEnv hok).2⟩

/-- C8: when `register_chrdev`, `class_create` or `device_create` fails,
`capa110dio_init` returns that step's negative error code, has released
everything the earlier steps acquired (the major number is unregistered, the
class destroyed) so that no resource is held, and has issued no port access;
it returns 0 exactly when all three steps succeed. -/
theorem init_failure_unwinds (k : KernelEnv) :
    (k.register_chrdev < 0 →
      (capa110dio_init k).1 = k.register_chrdev ∧ (capa110dio_init k).1 < 0 ∧
      (capa110dio_init k).2 = [InitEvent.register_chrdev k.register_chrdev] ∧
      held (capa110dio_init k).2 = [] ∧ portEvents (capa110dio_init k).2 = []) ∧
    (¬ k.register_chrdev < 0 → IS_ERR k.class_create = true →
      (capa110dio_init k).1 = k.class_create ∧ (capa110dio_init k).1 < 0 ∧
      (capa110dio_init k).2
        = [InitEvent.register_chrdev k.register_chrdev,
            InitEvent.class_create k.class_create,
            InitEvent.unregister_chrdev k.register_chrdev] ∧
      held (capa110dio_init k).2 = [] ∧ portEvents (capa110dio_init k).2 = []) ∧
    (¬ k.register_chrdev < 0 → IS_ERR k.class_create = false →
        IS_ERR k.device_create = true →
      (capa110dio_init k).1 = k.device_create ∧ (capa110dio_init k).1 < 0 ∧
      (capa110dio_init k).2
        = [InitEvent.register_chrdev k.register_chrdev,
            InitEvent.class_create k.class_create,
            InitEvent.device_create k.class_create k.register_chrdev k.device_create,
            InitEvent.class_destroy k.class_create,
            InitEvent.unregister_chrdev k.register_chrdev] ∧
      held (capa110dio_init k).2 = [] ∧ portEvents (capa110dio_init k).2 = []) ∧
    ((capa110dio_init k).1 = 0 ↔
      ¬ k.register_chrdev < 0 ∧ IS_ERR k.class_create = false ∧
        IS_ERR k.device_create = false) := by
  rcases init_cases k with h | h | h | h
  · obtain ⟨h1, he⟩ := h
    refine ⟨fun _ => ?_, fun h' => absurd h1 h', fun h' => absurd h1 h', ?_⟩
    · rw [he]
      refine ⟨rfl, h1, rfl, ?_, rfl⟩
      simp [held, heldStep, h1]
    · rw [he]
      constructor
      · intro h0
        simp only at h0
        omega
      · intro h'
        exact absurd h1 h'.1
  · obtain ⟨h1, h2, he⟩ := h
    have hr := (isErr_iff _).1 h2
    refine ⟨fun h' => absurd h' h1, fun _ _ => ?_, fun _ h' => ?_, ?_⟩
    · rw [he]
      refine ⟨rfl, hr.2, rfl, ?_, rfl⟩
      simp [held, heldStep, h1, h2]
    · rw [h2] at h'
      exact absurd h' (by decide)
    · rw [he]
      constructor
      · intro h0
        simp only at h0
        omega
      · intro h'
        rw [h2] at h'
        exact absurd h'.2.1 (by decide)
  · obtain ⟨h1, h2, h3, he⟩ := h
    have hr := (isErr_iff _).1 h3
    refine ⟨fun h' => absurd h' h1, fun _ h' => ?_, fun _ _ _ => ?_, ?_⟩
    · rw [h2] at h'
      exact absurd h' (by decide)
    · rw [he]
      refine ⟨rfl, hr.2, rfl, ?_, rfl⟩
      simp [held, heldStep, h1, h2, h3]
    · rw [he]
      constructor
      · intro h0
        simp only at h0
        omega
      · intro h'
        rw [h3] at h'
        exact absurd h'.2.2 (by decide)
  · obtain ⟨h1, h2, h3, he⟩ := h
    refine ⟨fun h' => absurd h' h1, fun _ h' => ?_, fun _ _ h' => ?_, ?_⟩
    · rw [h2] at h'
      exact absurd h' (by decide)
    · rw [h3] at h'
      exact absurd h' (by decide)
    · rw [he]
      exact ⟨fun _ => ⟨h1, h2, h3⟩, fun _ => rfl⟩

/-- Initialisation when `device_create` fails with `-ENOMEM`: the class is
destroyed, the major number unregistered, nothing is held and no port is
touched. -/
theorem init_failure_unwinds_witness :
    (capa110dio_init noDeviceEnv).1 = -12 ∧ (capa110dio_init noDeviceEnv).1 < 0 ∧
      (capa110dio_init noDeviceEnv).2
        = [InitEvent.register_chrdev 250, InitEvent.class_create 0x1000,
            InitEvent.device_create 0x1000 250 (-12), InitEvent.class_destroy 0x1000,
            InitEvent.unregister_chrdev 250] ∧
      held (capa110dio_init noDeviceEnv).2 = [] ∧
      portEvents (capa110dio_init noDeviceEnv).2 = [] :=
  (init_failure_unwinds noDeviceEnv).2.2.1 (by decide) (by decide) (by decide)

/-! ## Calls in flight at the same time -/

theorem execAll_append (hw : Hardware) (a b : List PortInstr) :
    ∀ t : Trace, execAll hw (a ++ b) t = execAll hw b (execAll hw a t) := by
  induction a with
  | nil => intro t; rfl
  | cons i a ih => intro t; simp [execAll, ih]

theorem execAll_writes (hw : Hardware) (evs : Trace)
    (h : ∀ e ∈ evs, ∃ v p, e = PortEvent.out v p ∧ v < 256) :
    ∀ t : Trace, execAll hw (evs.map instrOf) t = t ++ evs := by
  induction evs with
  | nil => intro t; simp [execAll]
  | cons e evs ih =>
    intro t
    obtain ⟨v, p, rfl, hv⟩ := h _ (List.mem_cons_self _ _)
    have hmod : v % 256 = v := by omega
    simp only [List.map_cons, instrOf, execAll, exec, outb, toU8_natCast, hmod]
    rw [ih (fun e he => h e (List.mem_cons_of_mem _ he))]
    simp

theorem write_segment_bytes (f : Nat → Nat) (n : Nat) :
    ∀ e ∈ selectSeq ++ (List.range' 0 n).flatMap (fun i => writePair (f i % 256)),
      ∃ v p, e = PortEvent.out v p ∧ v < 256 := by
  intro e he
  rcases List.mem_append.1 he with h | h
  · simp only [selectSeq, List.mem_cons, List.mem_singleton, List.not_mem_nil, or_false] at h
    rcases h with rfl | rfl | rfl | rfl
    · exact ⟨_, _, rfl, by decide⟩
    · exact ⟨_, _, rfl, by decide⟩
    · exact ⟨_, _, rfl, by decide⟩
    · exact ⟨_, _, rfl, by decide⟩
  · obtain ⟨i, _, hi⟩ := List.mem_flatMap.1 h
    simp only [writePair, List.mem_cons, List.mem_singleton, List.not_mem_nil, or_false] at hi
    rcases hi with rfl | rfl
    · exact ⟨_, _, rfl, by decide⟩
    · exact ⟨_, _, rfl, Nat.mod_lt _ (by decide)⟩

/-- Executing a call's port instructions one after another is the call. -/
theorem execAll_program (abi : Abi) (hw : Hardware) (op : Op) (t : Trace) :
    execAll hw (program abi op) t = runOp abi hw op t := by
  cases op with
  | read buffer len =>
    by_cases hlen : 0 < len
    · simp [program, runOp, dev_read, hlen, selectDioDevice_eq, selectSeq, outb, inb, toU8,
        CMD_IO, PORT_CMD, PORT_PARAM, instrOf, execAll, exec]
    · simp [program, runOp, dev_read, hlen, execAll]
  | write buffer len =>
    simp only [program, runOp, dev_write_eq, List.nil_append]
    rw [execAll_writes hw _ (write_segment_bytes buffer len), List.append_assoc]

theorem runSchedule_second (hw : Hardware) :
    ∀ (b : List PortInstr) (t : Trace),
      runSchedule hw (List.replicate b.length false) ⟨[], b, t⟩
        = ⟨[], [], execAll hw b t⟩ := by
  intro b
  induction b with
  | nil => intro t; simp [runSchedule, execAll]
  | cons i b ih =>
    intro t
    simp only [List.length_cons, List.replicate_succ, runSchedule, execAll]
    exact ih _

theorem runSchedule_serial (hw : Hardware) (b : List PortInstr) :
    ∀ (a : List PortInstr) (t : Trace),
      runSchedule hw (serialSchedule a b) ⟨a, b, t⟩
        = ⟨[], [], execAll hw b (execAll hw a t)⟩ := by
  intro a
  induction a with
  | nil =>
    intro t
    simp only [serialSchedule, List.length_nil, List.replicate_zero, List.nil_append, execAll]
    exact runSchedule_second hw b t
  | cons i a ih =>
    intro t
    have := ih (exec hw i t)
    simp only [serialSchedule] at this
    simp only [serialSchedule, List.length_cons, List.replicate_succ, List.cons_append,
      runSchedule, execAll]
    exact this

/-- C9, as stated, fails: the source takes no lock, so two `dev_write` calls in
flight at the same time can interleave. Under `raceSchedule` the data byte
0xAA of the first call reaches the parameter port only after the whole second
call, and the trace is that of neither serial order. -/
theorem calls_interleave_counterexample :
    (runSchedule (pins 0) raceSchedule
        ⟨program lp64 writeA, program lp64 writeB, []⟩).first = [] ∧
      (runSchedule (pins 0) raceSchedule
        ⟨program lp64 writeA, program lp64 writeB, []⟩).second = [] ∧
      (runSchedule (pins 0) raceSchedule
        ⟨program lp64 writeA, program lp64 writeB, []⟩).trace
        = [PortEvent.out 0x87 0x2E, PortEvent.out 0x87 0x2E, PortEvent.out 0x07 0x2E,
            PortEvent.out 0x08 0x2F, PortEvent.out 0xE1 0x2E,
            PortEvent.out 0x87 0x2E, PortEvent.out 0x87 0x2E, PortEvent.out 0x07 0x2E,
            PortEvent.out 0x08 0x2F, PortEvent.out 0xE1 0x2E, PortEvent.out 0x55 0x2F,
            PortEvent.out 0xAA 0x2F] ∧
      (runSchedule (pins 0) raceSchedule
        ⟨program lp64 writeA, program lp64 writeB, []⟩).trace
        ≠ runOps lp64 (pins 0) [writeA, writeB] [] ∧
      (runSchedule (pins 0) raceSchedule
        ⟨program lp64 writeA, program lp64 writeB, []⟩).trace
        ≠ runOps lp64 (pins 0) [writeB, writeA] [] := by
  have hA : program lp64 writeA
      = [PortInstr.outb 0x87 0x2E, PortInstr.outb 0x87 0x2E, PortInstr.outb 0x07 0x2E,
          PortInstr.outb 0x08 0x2F, PortInstr.outb 0xE1 0x2E, PortInstr.outb 0xAA 0x2F] := by
    simp [program, runOp, writeA, dev_write_eq, selectSeq, writePair, bufferOf, instrOf]
  have hB : program lp64 writeB
      = [PortInstr.outb 0x87 0x2E, PortInstr.outb 0x87 0x2E, PortInstr.outb 0x07 0x2E,
          PortInstr.outb 0x08 0x2F, PortInstr.outb 0xE1 0x2E, PortInstr.outb 0x55 0x2F] := by
    simp [program, runOp, writeB, dev_write_eq, selectSeq, writePair, bufferOf, instrOf]
  have hAB : runOps lp64 (pins 0) [writeA, writeB] []
      = [PortEvent.out 0x87 0x2E, PortEvent.out 0x87 0x2E, PortEvent.out 0x07 0x2E,
          PortEvent.out 0x08 0x2F, PortEvent.out 0xE1 0x2E, PortEvent.out 0xAA 0x2F,
          PortEvent.out 0x87 0x2E, PortEvent.out 0x87 0x2E, PortEvent.out 0x07 0x2E,
          PortEvent.out 0x08 0x2F, PortEvent.out 0xE1 0x2E, PortEvent.out 0x55 0x2F] := by
    simp [runOps, runOp, writeA, writeB, dev_write_eq, selectSeq, writePair, bufferOf]
  have hBA : runOps lp64 (pins 0) [writeB, writeA] []
      = [PortEvent.out 0x87 0x2E, PortEvent.out 0x87 0x2E, PortEvent.out 0x07 0x2E,
          PortEvent.out 0x08 0x2F, PortEvent.out 0xE1 0x2E, PortEvent.out 0x55 0x2F,
          PortEvent.out 0x87 0x2E, PortEvent.out 0x87 0x2E, PortEvent.out 0x07 0x2E,
          PortEvent.out 0x08 0x2F, PortEvent.out 0xE1 0x2E, PortEvent.out 0xAA 0x2F] := by
    simp [runOps, runOp, writeA, writeB, dev_write_eq, selectSeq, writePair, bufferOf]
  rw [hA, hB, hAB, hBA]
  decide

/-- C9, amended: `dev_read` and `dev_write` hold no lock, and calls are
serialised only by single-threaded dispatch. When one call runs to its end
before the next starts, both calls finish, the trace is that of calling the
two functions one after the other, and it is the starting trace followed by the
first call's whole segment and then the second call's whole segment, so the
port accesses of the two calls do not interleave. -/
theorem serial_dispatch_no_interleaving (abi : Abi) (hw : Hardware) (op1 op2 : Op)
    (t : Trace) :
    runSchedule hw (serialSchedule (program abi op1) (program abi op2))
        ⟨program abi op1, program abi op2, t⟩
      = ⟨[], [], runOp abi hw op2 (runOp abi hw op1 t)⟩ ∧
    runOp abi hw op2 (runOp abi hw op1 t)
      = t ++ (runOp abi hw op1 t).drop t.length
          ++ (runOp abi hw op2 (runOp abi hw op1 t)).drop (runOp abi hw op1 t).length ∧
    SegShape ((runOp abi hw op1 t).drop t.length) ∧
    SegShape ((runOp abi hw op2 (runOp abi hw op1 t)).drop (runOp abi hw op1 t).length) := by
  have h := segments_shape abi hw [op1, op2] t
  simp only [runOps, segments, List.flatten_cons, List.flatten_nil, List.append_nil,
    List.mem_cons, List.mem_singleton, List.not_mem_nil, or_false, forall_eq_or_imp,
    forall_eq] at h
  refine ⟨?_, ?_, h.2.1, h.2.2⟩
  · rw [runSchedule_serial, execAll_program, execAll_program]
  · rw [List.append_assoc]
    exact h.1

end Capa110dio
